import Mathlib

/-!
Shallow embedding of the `Image_Classification_CNN` notebook
(`ConvNetModel`, `train_loop`, `test_loop`, and the driver cell).

Tensors are embedded as total functions from natural-number indices to an
ordered field `α`; the shape of a tensor is carried separately by the
functions that consume it, mirroring how shapes flow through the PyTorch
runtime.  The framework primitives that are genuinely transcendental over
the rationals (`sqrt` inside `BatchNorm2d`, `exp`/`log` inside
`LogSoftmax`) are taken as function parameters so that the development can
be instantiated both at `ℚ` (for executable witnesses) and at `ℝ` with
`Real.sqrt`, `Real.exp`, `Real.log` (for the analytic facts).
-/

set_option linter.unusedSectionVars false

namespace CNN

variable {α : Type} [LinearOrderedField α]

/-- A 4-dimensional tensor (batch, channel, row, column), embedded as a
total function on indices. -/
def T4 (α : Type) : Type := ℕ → ℕ → ℕ → ℕ → α

/-- A 2-dimensional tensor (batch, feature). -/
def T2 (α : Type) : Type := ℕ → ℕ → α

/-- Sum of `f 0 + f 1 + ... + f (n-1)`. -/
def sumN : ℕ → (ℕ → α) → α
  | 0, _ => 0
  | n + 1, f => sumN n f + f n

/-- `nn.Conv2d(in_channels=ci, kernel_size=k, stride=s, padding=0)` with
weight tensor `w` (out-channel, in-channel, row, col) and bias `bias`:
cross-correlation of the input with the kernels, plus the bias. -/
def conv2d (w : T4 α) (bias : ℕ → α) (ci k s : ℕ) (x : T4 α) : T4 α :=
  fun b o i j =>
    bias o + sumN ci (fun c => sumN k (fun di => sumN k (fun dj =>
      w o c di dj * x b c (s * i + di) (s * j + dj))))

/-- `F.relu` applied elementwise to a 4-d tensor. -/
def relu4 (x : T4 α) : T4 α := fun b c i j => max (x b c i j) 0

/-- `F.relu` applied elementwise to a 2-d tensor. -/
def relu2 (x : T2 α) : T2 α := fun b k => max (x b k) 0

/-- `nn.MaxPool2d(kernel_size=2)` (stride defaults to the kernel size,
padding 0): maximum over each 2×2 window. -/
def maxPool2 (x : T4 α) : T4 α :=
  fun b c i j =>
    max (max (x b c (2 * i) (2 * j)) (x b c (2 * i) (2 * j + 1)))
        (max (x b c (2 * i + 1) (2 * j)) (x b c (2 * i + 1) (2 * j + 1)))

/-- Sum of all entries of channel `c` over a `(B, ·, H, W)` tensor. -/
def channelSum (B H W : ℕ) (x : T4 α) (c : ℕ) : α :=
  sumN B (fun b => sumN H (fun i => sumN W (fun j => x b c i j)))

/-- Per-channel mean over batch and spatial dimensions, as used by
`nn.BatchNorm2d` in training mode. -/
def channelMean (B H W : ℕ) (x : T4 α) (c : ℕ) : α :=
  channelSum B H W x c / ((B * H * W : ℕ) : α)

/-- Per-channel biased variance (denominator `n`), used by `BatchNorm2d`
to normalize in training mode; computed as `E[x²] − (E[x])²`. -/
def channelVar (B H W : ℕ) (x : T4 α) (c : ℕ) : α :=
  channelSum B H W (fun b c' i j => x b c' i j * x b c' i j) c / ((B * H * W : ℕ) : α)
    - channelMean B H W x c * channelMean B H W x c

/-- Per-channel unbiased variance (denominator `n − 1`), used by
`BatchNorm2d` to update the running-variance buffer. -/
def channelVarUnbiased (B H W : ℕ) (x : T4 α) (c : ℕ) : α :=
  (channelVar B H W x c) * ((B * H * W : ℕ) : α) / ((B * H * W - 1 : ℕ) : α)

/-- `eps` of `nn.BatchNorm2d` (default `1e-5`). -/
def bnEps : α := 1 / 100000

/-- `momentum` of `nn.BatchNorm2d` (default `0.1`). -/
def bnMomentum : α := 1 / 10

/-- The state of one `nn.BatchNorm2d` module: learnable scale/shift and
the running-statistics buffers (plus the batch counter). -/
structure BNState (α : Type) where
  gamma : ℕ → α
  shift : ℕ → α
  rmean : ℕ → α
  rvar : ℕ → α
  nbt : ℕ

/-- `nn.BatchNorm2d` forward.  In training mode it normalizes with the
current batch statistics and updates the running buffers with momentum
`0.1` (running variance uses the unbiased estimate); in eval mode it
normalizes with the running buffers and leaves them unchanged.  `sqrt` is
the framework's square-root primitive. -/
def batchNorm2d (sqrt : α → α) (training : Bool) (bn : BNState α)
    (B H W : ℕ) (x : T4 α) : T4 α × BNState α :=
  if training then
    ( fun b c i j =>
        bn.gamma c * ((x b c i j - channelMean B H W x c)
          / sqrt (channelVar B H W x c + bnEps)) + bn.shift c,
      { bn with
        rmean := fun c => (1 - bnMomentum) * bn.rmean c
          + bnMomentum * channelMean B H W x c,
        rvar := fun c => (1 - bnMomentum) * bn.rvar c
          + bnMomentum * channelVarUnbiased B H W x c,
        nbt := bn.nbt + 1 } )
  else
    ( fun b c i j =>
        bn.gamma c * ((x b c i j - bn.rmean c) / sqrt (bn.rvar c + bnEps))
          + bn.shift c,
      bn )

/-- `nn.Flatten()` on a `(B, C, H, W)` tensor: row-major flattening of the
channel and spatial dimensions. -/
def flattenT (H W : ℕ) (x : T4 α) : T2 α :=
  fun b f => x b (f / (H * W)) (f % (H * W) / W) (f % W)

/-- `nn.Linear(inF, ·)` with weight `w` (out-feature, in-feature) and
bias. -/
def linearT (w : T2 α) (bias : ℕ → α) (inF : ℕ) (x : T2 α) : T2 α :=
  fun b k => bias k + sumN inF (fun f => w k f * x b f)

/-- `nn.LogSoftmax(dim=1)` over `n` classes: `x_k − log (Σ_j exp x_j)`.
`exp` and `log` are the framework's primitives. -/
def logSoftmaxT (exp log : α → α) (n : ℕ) (x : T2 α) : T2 α :=
  fun b k => x b k - log (sumN n (fun j => exp (x b j)))

/-- The full state of a `ConvNetModel` instance: the learnable parameters
of `conv1`, `bn1`, `conv2`, `bn2`, `fc`, the batch-norm buffers, and the
`nn.Module` training flag (`True` at construction; the notebook never
calls `model.eval()`). -/
structure ModelState (α : Type) where
  w1 : T4 α
  b1 : ℕ → α
  bn1 : BNState α
  w2 : T4 α
  b2 : ℕ → α
  bn2 : BNState α
  fcW : T2 α
  fcB : ℕ → α
  training : Bool

/-- First stage of `ConvNetModel.forward` exactly as the code composes it:
`self.pool1(F.relu(self.bn1(self.conv1(x))))`, i.e. convolution, then
batch normalization, then ReLU, then max-pooling.  On 28×28 inputs the
convolution output is 26×26, which is the spatial extent the batch-norm
statistics range over. -/
def stage1 (sqrt : α → α) (s : ModelState α) (B : ℕ) (x : T4 α) :
    T4 α × BNState α :=
  let c := conv2d s.w1 s.b1 1 3 1 x
  let p := batchNorm2d sqrt s.training s.bn1 B 26 26 c
  (maxPool2 (relu4 p.1), p.2)

/-- First stage in the order stated by the specification and by the
notebook's own comments: convolution, then ReLU activation, then batch
normalization, then max-pooling.  This definition follows the spec's
words, for comparison with `stage1` (which follows the code). -/
def stage1SpecOrder (sqrt : α → α) (s : ModelState α) (B : ℕ) (x : T4 α) :
    T4 α × BNState α :=
  let c := conv2d s.w1 s.b1 1 3 1 x
  let p := batchNorm2d sqrt s.training s.bn1 B 26 26 (relu4 c)
  (maxPool2 p.1, p.2)

/-- Second stage of `ConvNetModel.forward` as the code composes it:
`self.pool2(F.relu(self.bn2(self.conv2(x))))`.  On the 13×13 output of
stage 1, `conv2` (kernel 3, stride 2) produces 6×6. -/
def stage2 (sqrt : α → α) (s : ModelState α) (B : ℕ) (x : T4 α) :
    T4 α × BNState α :=
  let c := conv2d s.w2 s.b2 6 3 2 x
  let p := batchNorm2d sqrt s.training s.bn2 B 6 6 c
  (maxPool2 (relu4 p.1), p.2)

/-- `ConvNetModel.forward` on a batch of `B` images of shape `(1, 28, 28)`:
the two convolution stages, flatten, `fc` (108 → 10), ReLU, and
`LogSoftmax(dim=1)` over the 10 classes.  Returns the output together
with the updated model state (the batch-norm buffers mutate in training
mode). -/
def forward (sqrt exp log : α → α) (s : ModelState α) (B : ℕ) (x : T4 α) :
    T2 α × ModelState α :=
  let p1 := stage1 sqrt s B x
  let p2 := stage2 sqrt s B p1.1
  let z := relu2 (linearT s.fcW s.fcB 108 (flattenT 3 3 p2.1))
  (logSoftmaxT exp log 10 z, { s with bn1 := p1.2, bn2 := p2.2 })

/-! ## Shape semantics

The spatial-size formula `floor((n + 2p − k)/s) + 1` from the notebook,
and the stage-by-stage shape propagation of `forward`, with the
configuration checks (channel counts, `in_features`) that the framework
enforces at runtime. -/

/-- `floor((n + 2·p − k)/s) + 1`, the output spatial size of a
convolution/pooling stage. -/
def convOut (n p k s : ℕ) : ℕ := (n + 2 * p - k) / s + 1

/-- Shape of a `(B, C, H, W)` tensor. -/
structure Shape4 where
  b : ℕ
  c : ℕ
  h : ℕ
  w : ℕ
deriving DecidableEq, Repr

/-- Shape semantics of `nn.Conv2d`: requires the input channel count to
match, and applies the size formula with padding 0. -/
def conv2dShape (cin cout k s : ℕ) (sh : Shape4) : Option Shape4 :=
  if sh.c = cin then
    some ⟨sh.b, cout, convOut sh.h 0 k s, convOut sh.w 0 k s⟩
  else none

/-- Shape semantics of `nn.BatchNorm2d(num_features)`: shape-preserving,
but requires the channel count to equal `num_features`. -/
def bnShape (feats : ℕ) (sh : Shape4) : Option Shape4 :=
  if sh.c = feats then some sh else none

/-- Shape semantics of `nn.MaxPool2d(kernel_size=k)` (stride `k`,
padding 0). -/
def poolShape (k : ℕ) (sh : Shape4) : Shape4 :=
  ⟨sh.b, sh.c, convOut sh.h 0 k k, convOut sh.w 0 k k⟩

/-- Shape semantics of `nn.Flatten()`. -/
def flattenShape (sh : Shape4) : ℕ × ℕ := (sh.b, sh.c * sh.h * sh.w)

/-- Shape semantics of `nn.Linear(inF, outF)`: requires the feature count
to equal `in_features`. -/
def linearShape (inF outF : ℕ) (sh : ℕ × ℕ) : Option (ℕ × ℕ) :=
  if sh.2 = inF then some (sh.1, outF) else none

/-- Shape propagation of `ConvNetModel.forward` on a `(B, 1, 28, 28)`
input: `conv1` → `bn1` → `pool1` → `conv2` → `bn2` → `pool2` → flatten →
`fc` (ReLU and LogSoftmax are shape-preserving). -/
def modelShape (B : ℕ) : Option (ℕ × ℕ) := do
  let s1 ← conv2dShape 1 6 3 1 ⟨B, 1, 28, 28⟩
  let s2 ← bnShape 6 s1
  let s3 := poolShape 2 s2
  let s4 ← conv2dShape 6 12 3 2 s3
  let s5 ← bnShape 12 s4
  let s6 := poolShape 2 s5
  linearShape (12 * 3 * 3) 10 (flattenShape s6)

/-! ## The evaluation loop (`test_loop`)

`test_loop(dataloader, model, loss_fn)` is parametric in the model and the
loss function, exactly as in the source.  A batch is a size together with
its image tensor and integer labels; the data-loader partitions the
dataset, so `len(dataloader.dataset)` is the sum of the batch sizes and
`len(dataloader)` is the number of batches.  The final divisions raise
`ZeroDivisionError` in Python when a denominator is zero, which the
embedding models with `Except`. -/

/-- One `(X, y)` pair yielded by a data loader: `size` examples with
images `x` and integer class labels `y`. -/
structure Batch (α : Type) where
  size : ℕ
  x : T4 α
  y : ℕ → ℕ

/-- `len(dataloader.dataset)`: the total number of examples. -/
def datasetSize (batches : List (Batch α)) : ℕ :=
  (batches.map (fun b => b.size)).sum

/-- `torch.argmax` over indices `0 .. n−1`: the index of the first maximal
value (0 when `n = 0`). -/
def argmaxN : ℕ → (ℕ → α) → ℕ
  | 0, _ => 0
  | n + 1, f =>
    if n = 0 then 0
    else
      let a := argmaxN n f
      if f a < f n then n else a

/-- `nn.NLLLoss()` with the default mean reduction on a batch of `B`
log-probability rows: `−(Σ_i pred[i][y_i]) / B`. -/
def nllLoss (B : ℕ) (pred : T2 α) (y : ℕ → ℕ) : α :=
  -(sumN B (fun i => pred i (y i))) / (B : α)

/-- `(pred.argmax(1) == y).type(torch.float).sum().item()`: the number of
examples in the batch whose first-maximal output index equals the label. -/
def correctOf (B : ℕ) (pred : T2 α) (y : ℕ → ℕ) : α :=
  sumN B (fun i => if argmaxN 10 (fun k => pred i k) = y i then 1 else 0)

/-- Body of `test_loop`'s `for X, y in dataloader` loop: threads the model
state and accumulates `test_loss` and `correct`. -/
def testLoopAux {σ : Type} (model : σ → Batch α → T2 α × σ)
    (lossFn : ℕ → T2 α → (ℕ → ℕ) → α) :
    σ → α → α → List (Batch α) → σ × α × α
  | s, accL, accC, [] => (s, accL, accC)
  | s, accL, accC, b :: rest =>
    let p := model s b
    testLoopAux model lossFn p.2
      (accL + lossFn b.size p.1 b.y)
      (accC + correctOf b.size p.1 b.y) rest

/-- `test_loop(dataloader, model, loss_fn)`: accumulate loss and correct
counts over all batches, then divide by the number of batches and the
dataset size.  The divisions are unguarded in the source; a zero
denominator is a Python `ZeroDivisionError`, modelled by `Except.error`.
The model state after all forward passes is returned alongside the
metrics. -/
def test_loop {σ : Type} (model : σ → Batch α → T2 α × σ)
    (lossFn : ℕ → T2 α → (ℕ → ℕ) → α) (s : σ) (batches : List (Batch α)) :
    σ × Except String (α × α) :=
  let r := testLoopAux model lossFn s 0 0 batches
  ( r.1,
    if batches.length = 0 then Except.error "ZeroDivisionError"
    else if datasetSize batches = 0 then Except.error "ZeroDivisionError"
    else Except.ok (r.2.1 / (batches.length : α),
                    r.2.2 / ((datasetSize batches : ℕ) : α)) )

/-- Applying the `ConvNetModel` to one batch inside a loop: one forward
pass, returning the predictions and the (possibly mutated) model state. -/
def modelApply (sqrt exp log : α → α) (s : ModelState α) (b : Batch α) :
    T2 α × ModelState α :=
  forward sqrt exp log s b.size b.x

/-! ## The training loop (`train_loop`)

`train_loop(dataloader, model, loss_fn, optimizer, verbose)` is parametric
in the model, the loss function, and the optimizer, as in the source.  The
numeric content of autograd (`loss.backward()`) and of the optimizer
(`optimizer.zero_grad()`, `optimizer.step()`) lives in the external
framework, so those operations are parameters here; what the embedding
captures is the state threading and the order in which the source invokes
them, recorded as an event trace. -/

/-- One event of the training-loop body, in source terms: the forward pass
`model(X)`, the loss computation `loss_fn(pred, y)`,
`optimizer.zero_grad()`, `loss.backward()`, `optimizer.step()`, and the
optional progress `print`. -/
inductive TEvent where
  | forwardE
  | lossE
  | zeroGradE
  | backwardE
  | stepE
  | printE
deriving DecidableEq, Repr

/-- The mutable state the training loop threads: the model's parameters
(and buffers), the per-parameter gradient slots, and the optimizer
state. -/
structure TrainState (P G O : Type) where
  params : P
  grads : G
  opt : O

/-- `train_loop(dataloader, model, loss_fn, optimizer, verbose)`.  Per
batch, exactly in source order: `pred = model(X)` (which may also mutate
model buffers), `loss = loss_fn(pred, y)`, `optimizer.zero_grad()`,
`loss.backward()` (gradients of the loss accumulate into the gradient
slots), `optimizer.step()`, and the progress print when `verbose` and
`i % 100 == 0`.  Returns the final state and the event trace. -/
def train_loop {P G O X Y L Pr : Type} (model : P → X → Pr × P)
    (lossFn : Pr → Y → L) (zeroGrad : G → G) (backward : L → G → G)
    (step : P → G → O → P × O) (verbose : Bool) :
    TrainState P G O → ℕ → List (X × Y) → TrainState P G O × List TEvent
  | st, _, [] => (st, [])
  | st, i, (x, y) :: rest =>
    let mp := model st.params x
    let l := lossFn mp.1 y
    let g0 := zeroGrad st.grads
    let g1 := backward l g0
    let po := step mp.2 g1 st.opt
    let r := train_loop model lossFn zeroGrad backward step verbose
      ⟨po.1, g1, po.2⟩ (i + 1) rest
    ( r.1,
      ([TEvent.forwardE, TEvent.lossE, TEvent.zeroGradE, TEvent.backwardE,
        TEvent.stepE]
        ++ (if verbose && (i % 100 == 0) then [TEvent.printE] else []))
        ++ r.2 )

/-! ## Helper lemmas -/

/-- The learnable parameters of two model states agree: convolution
kernels and biases, batch-norm scales and shifts, and the linear layer's
weight and bias. -/
def sameParams (s t : ModelState α) : Prop :=
  s.w1 = t.w1 ∧ s.b1 = t.b1 ∧ s.bn1.gamma = t.bn1.gamma
    ∧ s.bn1.shift = t.bn1.shift ∧ s.w2 = t.w2 ∧ s.b2 = t.b2
    ∧ s.bn2.gamma = t.bn2.gamma ∧ s.bn2.shift = t.bn2.shift
    ∧ s.fcW = t.fcW ∧ s.fcB = t.fcB

lemma sameParams_refl (s : ModelState α) : sameParams s s :=
  ⟨rfl, rfl, rfl, rfl, rfl, rfl, rfl, rfl, rfl, rfl⟩

/-- `batchNorm2d` leaves the learnable scale unchanged in both modes. -/
lemma batchNorm2d_gamma (sqrt : α → α) (tr : Bool) (bn : BNState α)
    (B H W : ℕ) (x : T4 α) :
    ((batchNorm2d sqrt tr bn B H W x).2).gamma = bn.gamma := by
  cases tr <;> rfl

/-- `batchNorm2d` leaves the learnable shift unchanged in both modes. -/
lemma batchNorm2d_shift (sqrt : α → α) (tr : Bool) (bn : BNState α)
    (B H W : ℕ) (x : T4 α) :
    ((batchNorm2d sqrt tr bn B H W x).2).shift = bn.shift := by
  cases tr <;> rfl

/-- A forward pass rewrites only the batch-norm buffers: every learnable
parameter of the resulting state is the original one. -/
lemma forward_sameParams (sqrt exp log : α → α) (s : ModelState α)
    (B : ℕ) (x : T4 α) : sameParams (forward sqrt exp log s B x).2 s :=
  ⟨rfl, rfl, batchNorm2d_gamma _ _ _ _ _ _ _, batchNorm2d_shift _ _ _ _ _ _ _,
    rfl, rfl, batchNorm2d_gamma _ _ _ _ _ _ _, batchNorm2d_shift _ _ _ _ _ _ _,
    rfl, rfl⟩

lemma sameParams_trans {s t u : ModelState α} (h1 : sameParams s t)
    (h2 : sameParams t u) : sameParams s u := by
  obtain ⟨a1, a2, a3, a4, a5, a6, a7, a8, a9, a10⟩ := h1
  obtain ⟨b1, b2, b3, b4, b5, b6, b7, b8, b9, b10⟩ := h2
  exact ⟨a1.trans b1, a2.trans b2, a3.trans b3, a4.trans b4, a5.trans b5,
    a6.trans b6, a7.trans b7, a8.trans b8, a9.trans b9, a10.trans b10⟩

/-- The evaluation loop's fold preserves every learnable parameter of the
`ConvNetModel`, whatever the loss function and initial accumulators. -/
lemma testLoopAux_sameParams (sqrt exp log : α → α)
    (lossFn : ℕ → T2 α → (ℕ → ℕ) → α) :
    ∀ (batches : List (Batch α)) (s : ModelState α) (accL accC : α),
      sameParams
        (testLoopAux (modelApply sqrt exp log) lossFn s accL accC batches).1
        s := by
  intro batches
  induction batches with
  | nil => intro s accL accC; exact sameParams_refl s
  | cons b rest ih =>
    intro s accL accC
    exact sameParams_trans
      (ih (modelApply sqrt exp log s b).2 _ _)
      (forward_sameParams sqrt exp log s b.size b.x)

/-- The list of per-batch loss values the evaluation loop accumulates,
stated as the spec states it (one loss per batch, summed afterwards). -/
def lossList {σ : Type} (model : σ → Batch α → T2 α × σ)
    (lossFn : ℕ → T2 α → (ℕ → ℕ) → α) : σ → List (Batch α) → List α
  | _, [] => []
  | s, b :: rest =>
    let p := model s b
    lossFn b.size p.1 b.y :: lossList model lossFn p.2 rest

/-- The list of per-batch correct-prediction counts, stated as the spec
states it (count of argmax matches per batch, summed afterwards). -/
def correctList {σ : Type} (model : σ → Batch α → T2 α × σ) :
    σ → List (Batch α) → List α
  | _, [] => []
  | s, b :: rest =>
    let p := model s b
    correctOf b.size p.1 b.y :: correctList model p.2 rest

/-- The evaluation loop's accumulators equal the initial values plus the
sums of the per-batch losses and correct counts. -/
lemma testLoopAux_metrics {σ : Type} (model : σ → Batch α → T2 α × σ)
    (lossFn : ℕ → T2 α → (ℕ → ℕ) → α) :
    ∀ (batches : List (Batch α)) (s : σ) (accL accC : α),
      (testLoopAux model lossFn s accL accC batches).2.1
          = accL + (lossList model lossFn s batches).sum
        ∧ (testLoopAux model lossFn s accL accC batches).2.2
          = accC + (correctList model s batches).sum := by
  intro batches
  induction batches with
  | nil => intro s accL accC; simp [testLoopAux, lossList, correctList]
  | cons b rest ih =>
    intro s accL accC
    have h := ih (model s b).2 (accL + lossFn b.size (model s b).1 b.y)
      (accC + correctOf b.size (model s b).1 b.y)
    simp only [testLoopAux, lossList, correctList, List.sum_cons]
    exact ⟨h.1.trans (by ring), h.2.trans (by ring)⟩

/-- `argmaxN` returns an index attaining the maximum: every in-range
value is bounded by the value at the returned index. -/
lemma argmaxN_le (g : ℕ → α) : ∀ n i, i < n → g i ≤ g (argmaxN n g) := by
  intro n
  induction n with
  | zero => intro i hi; exact absurd hi (Nat.not_lt_zero i)
  | succ n ih =>
    intro i hi
    cases n with
    | zero =>
      have h0 : i = 0 := by omega
      subst h0
      exact le_of_eq rfl
    | succ m =>
      rw [show argmaxN (m + 1 + 1) g
          = (if m + 1 = 0 then 0
             else if g (argmaxN (m + 1) g) < g (m + 1) then m + 1
             else argmaxN (m + 1) g) from rfl,
        if_neg (Nat.succ_ne_zero m)]
      rcases Nat.lt_succ_iff_lt_or_eq.1 hi with hin | hieq
      · have h1 := ih i hin
        by_cases hlt : g (argmaxN (m + 1) g) < g (m + 1)
        · rw [if_pos hlt]; exact h1.trans (le_of_lt hlt)
        · rw [if_neg hlt]; exact h1
      · rw [hieq]
        by_cases hlt : g (argmaxN (m + 1) g) < g (m + 1)
        · rw [if_pos hlt]
        · rw [if_neg hlt]; exact le_of_not_lt hlt

lemma sumN_nonneg (n : ℕ) (f : ℕ → α) (h : ∀ i, i < n → 0 ≤ f i) :
    0 ≤ sumN n f := by
  induction n with
  | zero => exact le_refl 0
  | succ n ih =>
    have h1 := ih (fun i hi => h i (Nat.lt_succ_of_lt hi))
    have h2 := h n (Nat.lt_succ_self n)
    simpa [sumN] using add_nonneg h1 h2

lemma sumN_nonpos (n : ℕ) (f : ℕ → α) (h : ∀ i, i < n → f i ≤ 0) :
    sumN n f ≤ 0 := by
  induction n with
  | zero => exact le_refl 0
  | succ n ih =>
    have h1 := ih (fun i hi => h i (Nat.lt_succ_of_lt hi))
    have h2 := h n (Nat.lt_succ_self n)
    simpa [sumN] using add_nonpos h1 h2

lemma sumN_pos (n : ℕ) (f : ℕ → α) (h : ∀ i, i < n → 0 < f i)
    (hn : 0 < n) : 0 < sumN n f := by
  cases n with
  | zero => exact absurd hn (lt_irrefl 0)
  | succ n =>
    have h1 := sumN_nonneg n f (fun i hi => le_of_lt (h i (Nat.lt_succ_of_lt hi)))
    have h2 := h n (Nat.lt_succ_self n)
    simpa [sumN] using add_pos_of_nonneg_of_pos h1 h2

lemma sumN_div (n : ℕ) (f : ℕ → α) (c : α) :
    sumN n (fun i => f i / c) = sumN n f / c := by
  induction n with
  | zero => simp [sumN]
  | succ n ih => simp [sumN, ih, add_div]

lemma sumN_le_sumN (n : ℕ) (f g : ℕ → α) (h : ∀ i, i < n → f i ≤ g i) :
    sumN n f ≤ sumN n g := by
  induction n with
  | zero => exact le_refl 0
  | succ n ih =>
    have h1 := ih (fun i hi => h i (Nat.lt_succ_of_lt hi))
    have h2 := h n (Nat.lt_succ_self n)
    simpa [sumN] using add_le_add h1 h2

lemma sumN_one (n : ℕ) : sumN n (fun _ => (1 : α)) = (n : α) := by
  induction n with
  | zero => simp [sumN]
  | succ n ih => simp [sumN, ih]

lemma sumN_const (n : ℕ) (c : α) : sumN n (fun _ => c) = (n : α) * c := by
  induction n with
  | zero => simp [sumN]
  | succ n ih =>
    rw [show sumN (n + 1) (fun _ => c) = sumN n (fun _ => c) + c from rfl, ih]
    push_cast
    ring

lemma sumN_f1 (f : ℕ → α) : sumN 1 f = 0 + f 0 := rfl

lemma sumN_f2 (f : ℕ → α) : sumN 2 f = 0 + f 0 + f 1 := rfl

lemma sumN_f3 (f : ℕ → α) : sumN 3 f = 0 + f 0 + f 1 + f 2 := rfl

/-- A single in-range term of a sum of nonnegative values is at most the
sum. -/
lemma single_le_sumN (f : ℕ → α) :
    ∀ n, (∀ i, i < n → 0 ≤ f i) → ∀ k, k < n → f k ≤ sumN n f := by
  intro n
  induction n with
  | zero => intro _ k hk; exact absurd hk (Nat.not_lt_zero k)
  | succ n ih =>
    intro h k hk
    rcases Nat.lt_succ_iff_lt_or_eq.1 hk with hk' | hk'
    · calc f k ≤ sumN n f := ih (fun i hi => h i (Nat.lt_succ_of_lt hi)) k hk'
        _ ≤ sumN n f + f n :=
          le_add_of_nonneg_right (h n (Nat.lt_succ_self n))
        _ = sumN (n + 1) f := rfl
    · subst hk'
      have h1 := sumN_nonneg k f (fun i hi => h i (Nat.lt_succ_of_lt hi))
      calc f k ≤ sumN k f + f k := le_add_of_nonneg_left h1
        _ = sumN (k + 1) f := rfl

/-- Every entry of a `LogSoftmax` row with an in-range class index is
nonpositive, given the characteristic properties of the real `exp` and
`log` (positivity, `log ∘ exp = id`, monotonicity of `log` on the
positives). -/
lemma logSoftmaxT_nonpos (exp log : α → α)
    (hpos : ∀ t, 0 < exp t) (hlogexp : ∀ t, log (exp t) = t)
    (hlogmono : ∀ a b, 0 < a → a ≤ b → log a ≤ log b)
    (n : ℕ) (x : T2 α) (b k : ℕ) (hk : k < n) :
    logSoftmaxT exp log n x b k ≤ 0 := by
  have hle : exp (x b k) ≤ sumN n (fun j => exp (x b j)) :=
    single_le_sumN _ n (fun i _ => le_of_lt (hpos (x b i))) k hk
  have hlog : log (exp (x b k)) ≤ log (sumN n (fun j => exp (x b j))) :=
    hlogmono _ _ (hpos (x b k)) hle
  rw [hlogexp] at hlog
  exact sub_nonpos.2 hlog

/-- Exponentiating a `LogSoftmax` row sums to exactly 1, given the
characteristic properties of the real `exp` and `log`. -/
lemma logSoftmaxT_sum_exp (exp log : α → α)
    (hpos : ∀ t, 0 < exp t)
    (hsub : ∀ a b, exp (a - b) = exp a / exp b)
    (hexplog : ∀ t, 0 < t → exp (log t) = t)
    (n : ℕ) (hn : 0 < n) (x : T2 α) (b : ℕ) :
    sumN n (fun k => exp (logSoftmaxT exp log n x b k)) = 1 := by
  have hS : 0 < sumN n (fun j => exp (x b j)) :=
    sumN_pos _ _ (fun i _ => hpos _) hn
  unfold logSoftmaxT
  calc sumN n (fun k => exp (x b k - log (sumN n (fun j => exp (x b j)))))
      = sumN n (fun k => exp (x b k) / sumN n (fun j => exp (x b j))) := by
        simp only [hsub, hexplog _ hS]
    _ = sumN n (fun j => exp (x b j)) / sumN n (fun j => exp (x b j)) :=
        sumN_div n _ _
    _ = 1 := div_self (ne_of_gt hS)

/-- `NLLLoss` of a prediction whose picked entries are nonpositive is
nonnegative. -/
lemma nllLoss_nonneg (B : ℕ) (pred : T2 α) (y : ℕ → ℕ)
    (h : ∀ i, i < B → pred i (y i) ≤ 0) : 0 ≤ nllLoss B pred y := by
  unfold nllLoss
  exact div_nonneg (neg_nonneg.2 (sumN_nonpos B _ h)) (Nat.cast_nonneg B)

/-- The output of `forward` is literally a `LogSoftmax` of the ReLU-ed
linear layer output. -/
lemma forward_fst_eq (sqrt exp log : α → α) (s : ModelState α) (B : ℕ)
    (x : T4 α) :
    (forward sqrt exp log s B x).1
      = logSoftmaxT exp log 10 (relu2 (linearT s.fcW s.fcB 108
          (flattenT 3 3 (stage2 sqrt s B (stage1 sqrt s B x).1).1))) := rfl

lemma correctOf_nonneg (B : ℕ) (pred : T2 α) (y : ℕ → ℕ) :
    0 ≤ correctOf B pred y := by
  unfold correctOf
  refine sumN_nonneg B _ (fun i _ => ?_)
  split <;> norm_num

lemma correctOf_le (B : ℕ) (pred : T2 α) (y : ℕ → ℕ) :
    correctOf B pred y ≤ (B : α) := by
  unfold correctOf
  calc sumN B (fun i => if argmaxN 10 (fun k => pred i k) = y i
          then (1 : α) else 0)
      ≤ sumN B (fun _ => (1 : α)) := by
        refine sumN_le_sumN B _ _ (fun i _ => ?_)
        split <;> norm_num
    _ = (B : α) := sumN_one B

/-- Every per-batch correct count is nonnegative. -/
lemma correctList_nonneg {σ : Type} (model : σ → Batch α → T2 α × σ) :
    ∀ (batches : List (Batch α)) (s : σ),
      ∀ v ∈ correctList model s batches, 0 ≤ v := by
  intro batches
  induction batches with
  | nil => intro s v hv; simp [correctList] at hv
  | cons b rest ih =>
    intro s v hv
    rcases List.mem_cons.1 hv with h | h
    · subst h; exact correctOf_nonneg _ _ _
    · exact ih _ v h

/-- The total correct count is at most the dataset size. -/
lemma correctList_sum_le {σ : Type} (model : σ → Batch α → T2 α × σ) :
    ∀ (batches : List (Batch α)) (s : σ),
      (correctList model s batches).sum ≤ ((datasetSize batches : ℕ) : α) := by
  intro batches
  induction batches with
  | nil => intro s; simp [correctList, datasetSize]
  | cons b rest ih =>
    intro s
    have h1 : datasetSize (b :: rest) = b.size + datasetSize rest := by
      simp [datasetSize]
    rw [h1]
    push_cast
    calc (correctList model s (b :: rest)).sum
        = correctOf b.size (model s b).1 b.y
            + (correctList model (model s b).2 rest).sum := by
          simp [correctList]
      _ ≤ (b.size : α) + ((datasetSize rest : ℕ) : α) :=
          add_le_add (correctOf_le _ _ _) (ih (model s b).2)

/-- Every per-batch loss reported while evaluating the `ConvNetModel`
with `NLLLoss` is nonnegative, for nonempty batches with in-range
labels. -/
lemma lossList_modelApply_nonneg (sqrt exp log : α → α)
    (hpos : ∀ t, 0 < exp t) (hlogexp : ∀ t, log (exp t) = t)
    (hlogmono : ∀ a b, 0 < a → a ≤ b → log a ≤ log b) :
    ∀ (batches : List (Batch α)) (s : ModelState α),
      (∀ b ∈ batches, ∀ i, i < b.size → b.y i < 10) →
      ∀ v ∈ lossList (modelApply sqrt exp log) nllLoss s batches, 0 ≤ v := by
  intro batches
  induction batches with
  | nil => intro s _ v hv; simp [lossList] at hv
  | cons b rest ih =>
    intro s hlab v hv
    rcases List.mem_cons.1 hv with h | h
    · subst h
      refine nllLoss_nonneg _ _ _ (fun i hi => ?_)
      rw [show (modelApply sqrt exp log s b).1
          = (forward sqrt exp log s b.size b.x).1 from rfl,
        forward_fst_eq]
      exact logSoftmaxT_nonpos exp log hpos hlogexp hlogmono 10 _ i (b.y i)
        (hlab b (List.mem_cons_self b rest) i hi)
    · exact ih _ (fun b' hb' => hlab b' (List.mem_cons_of_mem b hb')) v h

/-- A computable stand-in for the exponential over `ℚ`: positive, strictly
increasing, with `plog` as two-sided partial inverse.  It exists solely to
discharge the `exp`/`log` hypotheses of the generic theorems on a
computable field. -/
def pexp (x : ℚ) : ℚ := if 0 ≤ x then x + 1 else 1 / (1 - x)

/-- Partial inverse of `pexp` on the positive rationals, monotone there. -/
def plog (y : ℚ) : ℚ := if 1 ≤ y then y - 1 else 1 - 1 / y

lemma pexp_pos (x : ℚ) : 0 < pexp x := by
  unfold pexp
  split
  · linarith
  · have hx : x < 0 := by linarith [not_le.1 (by assumption)]
    have : (0 : ℚ) < 1 - x := by linarith
    exact one_div_pos.2 this

lemma plog_pexp (x : ℚ) : plog (pexp x) = x := by
  unfold pexp plog
  by_cases hx : 0 ≤ x
  · rw [if_pos hx, if_pos (by linarith)]
    ring
  · have hx' : x < 0 := not_le.1 hx
    have h1 : (1 : ℚ) < 1 - x := by linarith
    have h2 : 1 / (1 - x) < 1 := by
      rw [div_lt_one (by linarith)]
      linarith
    rw [if_neg hx, if_neg (not_le.2 h2), one_div_one_div]
    ring

lemma plog_mono (a b : ℚ) (ha : 0 < a) (hab : a ≤ b) : plog a ≤ plog b := by
  unfold plog
  by_cases h1 : 1 ≤ a
  · rw [if_pos h1, if_pos (le_trans h1 hab)]
    linarith
  · have ha1 : a < 1 := not_le.1 h1
    have hinv : 1 ≤ 1 / a := by
      rw [le_div_iff₀ ha]
      linarith
    by_cases h2 : 1 ≤ b
    · rw [if_neg h1, if_pos h2]
      linarith
    · rw [if_neg h1, if_neg h2]
      have : 1 / b ≤ 1 / a := one_div_le_one_div_of_le ha hab
      linarith

/-- Concatenation of one copy of the event list `evs` per element of a
list: the trace shape of a loop that emits `evs` on every iteration. -/
def repeatTrace {β : Type} (evs : List TEvent) : List β → List TEvent
  | [] => []
  | _ :: rest => evs ++ repeatTrace evs rest

/-- Batch-norm state as `nn.BatchNorm2d` initializes it: scale 1, shift
0, running mean 0, running variance 1. -/
def initBN : BNState α := ⟨fun _ => 1, fun _ => 0, fun _ => 0, fun _ => 1, 0⟩

/-- A concrete `ConvNetModel` state (weights zeroed, batch-norm buffers
at their initialization, training mode on, as after construction). -/
def initState : ModelState α :=
  ⟨fun _ _ _ _ => 0, fun _ => 0, initBN, fun _ _ _ _ => 0, fun _ => 0,
    initBN, fun _ _ => 0, fun _ => 0, true⟩

/-- A concrete batch: one all-zero image with label 0. -/
def zeroBatch : Batch α := ⟨1, fun _ _ _ _ => 0, fun _ => 0⟩

/-! ## Concrete instances for the order-of-operations counterexample (C1)

A batch of two constant images through `conv1` configured as an identity
(delta) kernel.  The two constants are chosen so that both batch-norm
variances met along the way make `variance + eps` a perfect rational
square, so the model's `sqrt` primitive can be instantiated with the exact
rational square root at every point where it is evaluated. -/

/-- Pixel value of the first image: `99999/100000`. -/
def cexA : ℚ := 99999 / 100000

/-- Pixel value of the second image: `-200001/200000`. -/
def cexB : ℚ := -(200001 / 200000)

/-- Per-image constant value of the counterexample batch. -/
def cexVal (b : ℕ) : ℚ := if b = 0 then cexA else cexB

/-- The counterexample input batch: image 0 constantly `cexA`, image 1
constantly `cexB`. -/
def cexInput : T4 ℚ := fun b _ _ _ => cexVal b

/-- A delta convolution kernel: weight 1 at the top-left tap, 0
elsewhere, so the convolution output copies the input values. -/
def cexW : T4 ℚ := fun _ _ i j => if i = 0 ∧ j = 0 then 1 else 0

/-- Counterexample model state: delta `conv1` kernel, everything else at
initialization. -/
def cexState : ModelState ℚ := { (initState : ModelState ℚ) with w1 := cexW }

/-- The exact rational square root at the two points where the
counterexample evaluates the model's `sqrt` primitive (both are perfect
squares by construction), and 0 elsewhere. -/
def cexSqrt (q : ℚ) : ℚ :=
  if q = (400001 / 400000) ^ 2 then 400001 / 400000
  else if q = (100001 / 200000) ^ 2 then 100001 / 200000
  else 0

/-- The counterexample batch after ReLU: negative pixels clamped to 0. -/
def cexValS (b : ℕ) : ℚ := if b = 0 then cexA else 0

/-- The ReLU of `cexInput` as a tensor. -/
def cexInputS : T4 ℚ := fun b _ _ _ => cexValS b

/-- The delta-kernel convolution reproduces the input. -/
lemma cex_conv : conv2d cexW (fun _ => (0 : ℚ)) 1 3 1 cexInput = cexInput := by
  funext b o i j
  simp [conv2d, sumN_f1, sumN_f3, cexW, cexInput]

/-- Channel mean of the convolved counterexample batch. -/
lemma cex_meanC : channelMean 2 26 26 cexInput 0 = -(3 / 400000) := by
  simp only [channelMean, channelSum, cexInput, sumN_const, sumN_f2]
  norm_num [cexVal, cexA, cexB]

/-- Channel variance plus `eps` of the convolved batch is the perfect
square `(400001/400000)²`. -/
lemma cex_varCeps :
    channelVar 2 26 26 cexInput 0 + bnEps = (400001 / 400000) ^ 2 := by
  simp only [channelVar, channelMean, channelSum, cexInput, sumN_const, sumN_f2]
  norm_num [cexVal, cexA, cexB, bnEps]

/-- ReLU of the counterexample batch. -/
lemma cex_relu : relu4 cexInput = cexInputS := by
  funext b c i j
  by_cases hb : b = 0
  · simp only [relu4, cexInput, cexInputS, cexVal, cexValS, if_pos hb]
    norm_num [cexA, max_def]
  · simp only [relu4, cexInput, cexInputS, cexVal, cexValS, if_neg hb]
    norm_num [cexB, max_def]

/-- Channel mean of the ReLU-ed counterexample batch. -/
lemma cex_meanS : channelMean 2 26 26 cexInputS 0 = 99999 / 200000 := by
  simp only [channelMean, channelSum, cexInputS, sumN_const, sumN_f2]
  norm_num [cexValS, cexA]

/-- Channel variance plus `eps` of the ReLU-ed batch is the perfect
square `(100001/200000)²`. -/
lemma cex_varSeps :
    channelVar 2 26 26 cexInputS 0 + bnEps = (100001 / 200000) ^ 2 := by
  simp only [channelVar, channelMean, channelSum, cexInputS, sumN_const, sumN_f2]
  norm_num [cexValS, cexA, bnEps]

/-- The code's stage-1 order (conv → batch-norm → ReLU → pool) sends the
second image's top-left pooled activation to 0: batch norm makes it
negative and the subsequent ReLU clamps it. -/
lemma cex_stage1_code : (stage1 cexSqrt cexState 2 cexInput).1 1 0 0 0 = 0 := by
  show maxPool2 (relu4 (batchNorm2d cexSqrt true initBN 2 26 26
    (conv2d cexW (fun _ => (0 : ℚ)) 1 3 1 cexInput)).1) 1 0 0 0 = 0
  rw [cex_conv]
  simp only [maxPool2, relu4, batchNorm2d, if_pos trivial]
  simp only [cex_meanC, cex_varCeps, cexSqrt, if_pos rfl]
  norm_num [cexInput, cexVal, cexA, cexB, initBN, max_def]

/-- The documented order (conv → ReLU → batch-norm → pool) sends the same
activation to the strictly negative value `−99999/100001`: the ReLU runs
before normalization, and batch norm then shifts the zeroed pixel below
the batch mean. -/
lemma cex_stage1_doc : (stage1SpecOrder cexSqrt cexState 2 cexInput).1 1 0 0 0
    = -(99999 / 100001) := by
  show maxPool2 ((batchNorm2d cexSqrt true initBN 2 26 26
    (relu4 (conv2d cexW (fun _ => (0 : ℚ)) 1 3 1 cexInput))).1) 1 0 0 0
      = -(99999 / 100001)
  rw [cex_conv, cex_relu]
  simp only [maxPool2, batchNorm2d, if_pos trivial]
  simp only [cex_meanS, cex_varSeps, cexSqrt]
  simp only [if_true]
  norm_num [cexInputS, cexValS, cexA, initBN, max_def]

/-! ## Concrete instance for the buffer-mutation claim (C4) -/

/-- Model state with an all-ones `conv1` kernel (everything else at
initialization, training mode on). -/
def c4State : ModelState ℚ := { (initState : ModelState ℚ) with w1 := fun _ _ _ _ => 1 }

/-- A single all-ones image with label 0. -/
def onesBatch : Batch ℚ := ⟨1, fun _ _ _ _ => 1, fun _ => 0⟩

/-- The all-ones 3×3 convolution of an all-ones image is constantly 9. -/
lemma c4_conv : conv2d (fun _ _ _ _ => (1 : ℚ)) (fun _ => 0) 1 3 1
    (fun _ _ _ _ => 1) = fun _ _ _ _ => 9 := by
  funext b o i j
  simp only [conv2d, sumN_f1, sumN_f3]
  norm_num

/-- Channel mean of the constant-9 feature map. -/
lemma c4_mean : channelMean 1 26 26 (fun _ _ _ _ => (9 : ℚ)) 0 = 9 := by
  simp only [channelMean, channelSum, sumN_const, sumN_f1]
  norm_num

/-- One evaluation forward pass over `onesBatch` moves the first
running-mean buffer entry to `0.9·0 + 0.1·9 = 9/10`. -/
lemma c4_rmean :
    ((test_loop (modelApply (fun q => q) pexp plog) nllLoss c4State
      (onesBatch :: [])).1).bn1.rmean 0 = 9 / 10 := by
  show ((batchNorm2d (fun q : ℚ => q) true initBN 1 26 26
    (conv2d (fun _ _ _ _ => (1 : ℚ)) (fun _ => 0) 1 3 1
      (fun _ _ _ _ => 1))).2).rmean 0 = 9 / 10
  rw [c4_conv]
  simp only [batchNorm2d, if_pos trivial, c4_mean]
  simp [initBN, bnMomentum]
  norm_num

/-! ## Claims -/

/-- C1 (divergence of the code from the documented order): at a concrete
two-image batch with a delta `conv1` kernel and the exact rational square
root as the `sqrt` primitive, the code's first stage
`pool1(relu(bn1(conv1(x))))` — batch normalization *before* the ReLU
activation — produces a different output than the documented order
conv → activation → normalization → pooling: the code yields 0 at the
inspected position while the documented order yields `−99999/100001`. -/
theorem C1_stage1_order_divergence :
    (stage1 cexSqrt cexState 2 cexInput).1 1 0 0 0
      ≠ (stage1SpecOrder cexSqrt cexState 2 cexInput).1 1 0 0 0 := by
  rw [cex_stage1_code, cex_stage1_doc]
  norm_num

/-- C2: for every batch size `B ≥ 1`, shape propagation through
`ConvNetModel.forward` on a `(B, 1, 28, 28)` input succeeds and yields
`(B, 10)`, the spatial sizes follow the chain 28 → 26 → 13 → 6 → 3 via
the formula `floor((n + 2p − k)/s) + 1`, and the flattened feature count
entering `fc` is `12·3·3 = 108`, the configured `in_features`. -/
theorem C2_forward_output_shape (B : ℕ) (_hB : 1 ≤ B) :
    modelShape B = some (B, 10)
      ∧ convOut 28 0 3 1 = 26 ∧ convOut 26 0 2 2 = 13
      ∧ convOut 13 0 3 2 = 6 ∧ convOut 6 0 2 2 = 3
      ∧ (flattenShape (poolShape 2 ⟨B, 12, 6, 6⟩)).2 = 12 * 3 * 3
      ∧ linearShape (12 * 3 * 3) 10 (B, 108) = some (B, 10) := by
  refine ⟨?_, rfl, rfl, rfl, rfl, ?_, ?_⟩ <;>
  simp [modelShape, conv2dShape, bnShape, poolShape, flattenShape,
    linearShape, convOut]

/-- Witness for C2 at the notebook's batch size 64. -/
theorem C2_forward_output_shape_witness :
    1 ≤ 64
      ∧ (modelShape 64 = some (64, 10)
        ∧ convOut 28 0 3 1 = 26 ∧ convOut 26 0 2 2 = 13
        ∧ convOut 13 0 3 2 = 6 ∧ convOut 6 0 2 2 = 3
        ∧ (flattenShape (poolShape 2 ⟨64, 12, 6, 6⟩)).2 = 12 * 3 * 3
        ∧ linearShape (12 * 3 * 3) 10 (64, 108) = some (64, 10)) :=
  ⟨by decide, C2_forward_output_shape 64 (by decide)⟩

/-- C3 (counterexample): the claimed per-batch order — forward, loss,
backward, step, and only then zero_grad — is not the trace the code
produces: on a single batch the code emits zero_grad before backward. -/
theorem C3_claimed_order_false :
    ¬ ((train_loop (fun (p : ℕ) (x : ℕ) => (p + x, p))
        (fun (pr : ℕ) (y : ℕ) => pr + y) (fun (_ : ℕ) => (0 : ℕ))
        (fun l g => g + l) (fun (p : ℕ) (g : ℕ) (o : ℕ) => (p + g, o + g))
        false ⟨0, 0, 0⟩ 0 [((1 : ℕ), (1 : ℕ))]).2
      = repeatTrace [TEvent.forwardE, TEvent.lossE, TEvent.backwardE,
          TEvent.stepE, TEvent.zeroGradE] [((1 : ℕ), (1 : ℕ))]) := by
  decide

/-- C3 (amended): with `verbose=False` (as the training driver passes),
the training loop's per-batch order is: compute the model output, compute
the loss, clear the gradients, compute the gradients of the loss, apply
one optimizer step.  Gradient clearing thus precedes the same batch's
gradient computation (and so falls between the previous batch's optimizer
step and the next gradient computation); it does not follow the optimizer
step within a batch, and no clearing happens after the final step. -/
theorem C3_train_loop_event_order {P G O X Y L Pr : Type}
    (model : P → X → Pr × P) (lossFn : Pr → Y → L) (zeroGrad : G → G)
    (backward : L → G → G) (step : P → G → O → P × O)
    (st : TrainState P G O) (i : ℕ) (batches : List (X × Y)) :
    (train_loop model lossFn zeroGrad backward step false st i batches).2
      = repeatTrace [TEvent.forwardE, TEvent.lossE, TEvent.zeroGradE,
          TEvent.backwardE, TEvent.stepE] batches := by
  induction batches generalizing st i with
  | nil => rfl
  | cons b rest ih =>
    cases b
    simp [train_loop, repeatTrace, ih]

/-- C6: on a non-empty sequence of batches (with at least one example),
the evaluation loop reports exactly: average loss = the sum of the
per-batch losses divided by the number of batches, and accuracy = the
number of argmax-matches divided by the total number of examples; and the
predicted class index `argmaxN` indeed attains the maximum of the output
row. -/
theorem C6_test_loop_metrics {σ : Type} (model : σ → Batch α → T2 α × σ)
    (lossFn : ℕ → T2 α → (ℕ → ℕ) → α) (s : σ) (batches : List (Batch α))
    (hne : batches ≠ []) (hds : datasetSize batches ≠ 0) :
    (test_loop model lossFn s batches).2
        = Except.ok
            ((lossList model lossFn s batches).sum / (batches.length : α),
             (correctList model s batches).sum
               / ((datasetSize batches : ℕ) : α))
      ∧ ∀ (g : ℕ → α) (n i : ℕ), i < n → g i ≤ g (argmaxN n g) := by
  constructor
  · have hm := testLoopAux_metrics model lossFn batches s 0 0
    have hlen : batches.length ≠ 0 := fun h => hne (List.length_eq_zero.1 h)
    simp only [test_loop, if_neg hlen, if_neg hds, hm.1, hm.2, zero_add]
  · exact fun g n i hi => argmaxN_le g n i hi

/-- Witness for C6: a singleton batch of one example through a constant
model. -/
theorem C6_test_loop_metrics_witness :
    ((⟨1, fun _ _ _ _ => 0, fun _ => 0⟩ : Batch ℚ) :: []) ≠ []
      ∧ datasetSize ((⟨1, fun _ _ _ _ => 0, fun _ => 0⟩ : Batch ℚ) :: []) ≠ 0
      ∧ ((test_loop (fun (u : Unit) _b => ((fun _ _ => (0 : ℚ)), u)) nllLoss ()
            ((⟨1, fun _ _ _ _ => 0, fun _ => 0⟩ : Batch ℚ) :: [])).2
          = Except.ok
              ((lossList (fun (u : Unit) _b => ((fun _ _ => (0 : ℚ)), u)) nllLoss ()
                  ((⟨1, fun _ _ _ _ => 0, fun _ => 0⟩ : Batch ℚ) :: [])).sum
                 / ((((⟨1, fun _ _ _ _ => 0, fun _ => 0⟩ : Batch ℚ) :: []).length : ℕ) : ℚ),
               (correctList (fun (u : Unit) _b => ((fun _ _ => (0 : ℚ)), u)) ()
                  ((⟨1, fun _ _ _ _ => 0, fun _ => 0⟩ : Batch ℚ) :: [])).sum
                 / ((datasetSize ((⟨1, fun _ _ _ _ => 0, fun _ => 0⟩ : Batch ℚ) :: []) : ℕ) : ℚ))
          ∧ ∀ (g : ℕ → ℚ) (n i : ℕ), i < n → g i ≤ g (argmaxN n g)) :=
  ⟨by simp, by simp [datasetSize],
    C6_test_loop_metrics _ nllLoss () _ (by simp) (by simp [datasetSize])⟩

/-- C4: the evaluation loop never switches the model out of training
mode, and it mutates model state other than the learnable parameters:
there is a model state (in training mode, as constructed) and a batch
such that running the evaluation loop leaves every learnable parameter
unchanged, keeps the model in training mode, and yet changes the first
batch-norm layer's running-mean buffer (training-mode batch norm
normalizes with the current batch's statistics and folds them into the
running buffers). -/
theorem C4_eval_mutates_buffers :
    ∃ (s : ModelState ℚ) (b : Batch ℚ),
      s.training = true
        ∧ ((test_loop (modelApply (fun q => q) pexp plog) nllLoss s
            (b :: [])).1).training = true
        ∧ sameParams ((test_loop (modelApply (fun q => q) pexp plog) nllLoss s
            (b :: [])).1) s
        ∧ ((test_loop (modelApply (fun q => q) pexp plog) nllLoss s
            (b :: [])).1).bn1.rmean 0 ≠ s.bn1.rmean 0 := by
  refine ⟨c4State, onesBatch, rfl, rfl, ?_, ?_⟩
  · exact testLoopAux_sameParams (fun q => q) pexp plog nllLoss
      (onesBatch :: []) c4State 0 0
  · rw [c4_rmean]
    show (9 : ℚ) / 10 ≠ 0
    norm_num

/-- C5: running the evaluation loop (over any list of batches, any loss
function, and any instantiation of the framework primitives) leaves every
learnable parameter of the `ConvNetModel` unchanged: the convolution
kernels and biases, the batch-norm scales and shifts, and the linear
layer's weight and bias. -/
theorem C5_test_loop_preserves_params (sqrt exp log : α → α)
    (lossFn : ℕ → T2 α → (ℕ → ℕ) → α) (s : ModelState α)
    (batches : List (Batch α)) :
    sameParams (test_loop (modelApply sqrt exp log) lossFn s batches).1 s :=
  testLoopAux_sameParams sqrt exp log lossFn batches s 0 0

/-- C7: every row of the Model's output, exponentiated, sums to exactly
1: the final `LogSoftmax` makes each row a log-probability distribution
over the 10 classes.  The hypotheses are the characteristic algebraic
properties of the framework's `exp` and `log` (satisfied by `Real.exp`
and `Real.log`). -/
theorem C7_forward_rows_sum_one (sqrt exp log : α → α)
    (hpos : ∀ t, 0 < exp t)
    (hsub : ∀ a b, exp (a - b) = exp a / exp b)
    (hexplog : ∀ t, 0 < t → exp (log t) = t)
    (s : ModelState α) (B : ℕ) (x : T4 α) (b : ℕ) :
    sumN 10 (fun k => exp ((forward sqrt exp log s B x).1 b k)) = 1 := by
  rw [forward_fst_eq]
  exact logSoftmaxT_sum_exp exp log hpos hsub hexplog 10 (by norm_num) _ b

/-- Witness for C7: over `ℝ` with the genuine `Real.exp`/`Real.log`, the
first output row of a concrete forward pass exponentiates and sums to 1. -/
theorem C7_forward_rows_sum_one_witness :
    sumN 10 (fun k => Real.exp ((forward Real.sqrt Real.exp Real.log
        initState 1 (fun _ _ _ _ => 0)).1 0 k)) = 1 :=
  C7_forward_rows_sum_one Real.sqrt Real.exp Real.log
    (fun t => Real.exp_pos t) (fun a b => Real.exp_sub a b)
    (fun _t ht => Real.exp_log ht) initState 1 (fun _ _ _ _ => 0) 0

/-- C8: on any non-empty sequence of non-empty batches with in-range
labels, the evaluation loop of the `ConvNetModel` with `NLLLoss` reports
an accuracy in `[0, 1]` and a nonnegative average loss (the model's
outputs are log-probabilities, so each per-batch negative log-likelihood
is nonnegative). -/
theorem C8_test_loop_metric_bounds (sqrt exp log : α → α)
    (hpos : ∀ t, 0 < exp t) (hlogexp : ∀ t, log (exp t) = t)
    (hlogmono : ∀ a b, 0 < a → a ≤ b → log a ≤ log b)
    (s : ModelState α) (batches : List (Batch α))
    (hne : batches ≠ [])
    (hsz : ∀ b ∈ batches, 0 < b.size)
    (hlab : ∀ b ∈ batches, ∀ i, i < b.size → b.y i < 10) :
    ∃ avg acc : α,
      (test_loop (modelApply sqrt exp log) nllLoss s batches).2
          = Except.ok (avg, acc)
        ∧ 0 ≤ avg ∧ 0 ≤ acc ∧ acc ≤ 1 := by
  have hds : datasetSize batches ≠ 0 := by
    cases batches with
    | nil => exact absurd rfl hne
    | cons b rest =>
      have hb := hsz b (List.mem_cons_self b rest)
      simp only [datasetSize, List.map_cons, List.sum_cons]
      omega
  have hlen : batches.length ≠ 0 := fun h => hne (List.length_eq_zero.1 h)
  have hm := testLoopAux_metrics (modelApply sqrt exp log) nllLoss batches s 0 0
  have hdpos : (0 : α) < ((datasetSize batches : ℕ) : α) :=
    Nat.cast_pos.2 (Nat.pos_of_ne_zero hds)
  refine ⟨(lossList (modelApply sqrt exp log) nllLoss s batches).sum
      / (batches.length : α),
    (correctList (modelApply sqrt exp log) s batches).sum
      / ((datasetSize batches : ℕ) : α), ?_, ?_, ?_, ?_⟩
  · simp only [test_loop, if_neg hlen, if_neg hds, hm.1, hm.2, zero_add]
  · refine div_nonneg ?_ (Nat.cast_nonneg _)
    exact List.sum_nonneg
      (lossList_modelApply_nonneg sqrt exp log hpos hlogexp hlogmono
        batches s hlab)
  · refine div_nonneg ?_ (Nat.cast_nonneg _)
    exact List.sum_nonneg (correctList_nonneg (modelApply sqrt exp log) batches s)
  · exact (div_le_one hdpos).2
      (correctList_sum_le (modelApply sqrt exp log) batches s)

/-- Witness for C8: the `ℚ` instantiation (with the computable
`pexp`/`plog` pair standing in for `exp`/`log`) on a single one-example
batch. -/
theorem C8_test_loop_metric_bounds_witness :
    ((zeroBatch : Batch ℚ) :: []) ≠ []
      ∧ (∀ b ∈ ((zeroBatch : Batch ℚ) :: []), 0 < b.size)
      ∧ (∀ b ∈ ((zeroBatch : Batch ℚ) :: []), ∀ i, i < b.size → b.y i < 10)
      ∧ ∃ avg acc : ℚ,
          (test_loop (modelApply (fun t => t) pexp plog) nllLoss initState
              ((zeroBatch : Batch ℚ) :: [])).2
            = Except.ok (avg, acc)
          ∧ 0 ≤ avg ∧ 0 ≤ acc ∧ acc ≤ 1 :=
  ⟨by simp,
   fun b hb => by rw [List.mem_singleton] at hb; subst hb; exact Nat.one_pos,
   fun b hb i _ => by
     rw [List.mem_singleton] at hb; subst hb
     exact (by norm_num : (0 : ℕ) < 10),
   C8_test_loop_metric_bounds (fun t => t) pexp plog pexp_pos plog_pexp
     plog_mono initState ((zeroBatch : Batch ℚ) :: []) (by simp)
     (fun b hb => by rw [List.mem_singleton] at hb; subst hb; exact Nat.one_pos)
     (fun b hb i _ => by
       rw [List.mem_singleton] at hb; subst hb
       exact (by norm_num : (0 : ℕ) < 10))⟩

/-- C9: for a fixed parameter setting and a fixed input batch, two
consecutive forward passes produce identical outputs, even though the
first pass may mutate the batch-norm buffers: in training mode the output
depends only on the batch statistics and the learnable parameters, and in
eval mode the state does not change at all. -/
theorem C9_forward_deterministic (sqrt exp log : α → α)
    (s : ModelState α) (B : ℕ) (x : T4 α) :
    (forward sqrt exp log (forward sqrt exp log s B x).2 B x).1
      = (forward sqrt exp log s B x).1 := by
  obtain ⟨w1, b1, ⟨g1, sh1, rm1, rv1, n1⟩, w2, b2,
    ⟨g2, sh2, rm2, rv2, n2⟩, fcW, fcB, tr⟩ := s
  cases tr <;> rfl

/-- C10: on an empty sequence of batches the evaluation loop reports no
metrics: the unguarded division by the number of batches raises a
`ZeroDivisionError`, so a non-empty dataset is a precondition. -/
theorem C10_test_loop_empty_error {σ : Type}
    (model : σ → Batch α → T2 α × σ)
    (lossFn : ℕ → T2 α → (ℕ → ℕ) → α) (s : σ) :
    test_loop model lossFn s [] = (s, Except.error "ZeroDivisionError") :=
  rfl

end CNN
